import Mathlib

/-!
Verification development for the sound-to-element daily-mood pipeline
(src/fetch-daily-mood.ts). The TypeScript source is shallowly embedded:
JavaScript numbers are modelled as rationals, JavaScript Map objects as
association lists with the insertion-order update semantics of Map.set,
and each network call as a parameter describing the response received.
-/

/-- A track from the Spotify recently-played feed (interface SpotifyTrack). -/
structure SpotifyTrack where
  id : String
  name : String
  artists : List String
  playedAt : String
deriving DecidableEq

/-- Audio features returned by the SoundStat service (interface AudioFeatures). -/
structure AudioFeatures where
  id : String
  valence : ℚ
  energy : ℚ
  acousticness : ℚ
  danceability : ℚ
  tempo : ℚ
deriving DecidableEq

/-- Aggregate mood summary (interface MoodData). -/
structure MoodData where
  avgValence : ℚ
  avgEnergy : ℚ
  avgAcousticness : ℚ
  trackCount : ℕ
  analyzedCount : ℕ
deriving DecidableEq

/-- The five element labels (the name field of ElementData). -/
inductive ElementName where
  | FIRE
  | WATER
  | AIR
  | EARTH
  | AETHER
deriving DecidableEq

/-- The classification result (interface ElementData). -/
structure ElementData where
  name : ElementName
  gradient : String
  description : String
  mood : MoodData
  date : String
  tracks : List SpotifyTrack
deriving DecidableEq

/-- JavaScript Map.get on an association list: first entry with the key
(keys are unique in lists built by mapSet, so first match is the entry). -/
def mapGet {α : Type} : List (String × α) → String → Option α
  | [], _ => none
  | (k, v) :: rest, key => if key = k then some v else mapGet rest key

/-- JavaScript Map.set: when the key is already present its entry is updated
in place, keeping its position; otherwise the pair is appended. -/
def mapSet {α : Type} (m : List (String × α)) (key : String) (v : α) :
    List (String × α) :=
  if key ∈ m.map Prod.fst then
    m.map (fun p => if p.1 = key then (key, v) else p)
  else
    m ++ [(key, v)]

/-- new Map(pairs): insert the pairs left to right with Map.set. -/
def mapOfPairs {α : Type} (l : List (String × α)) : List (String × α) :=
  l.foldl (fun m p => mapSet m p.1 p.2) []

/-- The Map built by getSoundStatAudioFeatures for deduplication:
new Map(tracks.map((track) => [track.id, track])). -/
def jsUniqueMap (tracks : List SpotifyTrack) : List (String × SpotifyTrack) :=
  mapOfPairs (tracks.map (fun t => (t.id, t)))

/-- uniqueTracks = Array.from(new Map(tracks.map(t => [t.id, t])).values()). -/
def uniqueTracks (tracks : List SpotifyTrack) : List SpotifyTrack :=
  (jsUniqueMap tracks).map Prod.snd

/-- The identifiers for which the enrichment loop issues an analysis request,
in order: one request per element of uniqueTracks. -/
def requestedIds (tracks : List SpotifyTrack) : List String :=
  (uniqueTracks tracks).map SpotifyTrack.id

/-- The features object of a SoundStat response payload (data.features). -/
structure FeaturesPayload where
  valence : ℚ
  energy : ℚ
  acousticness : ℚ
  danceability : ℚ
  tempo : ℚ
deriving DecidableEq

/-- Outcome of one SoundStat request: a successful HTTP response whose JSON
body may or may not carry a features object, a non-success HTTP status, or a
thrown transport error. -/
inductive SoundStatResponse where
  | httpOk (features : Option FeaturesPayload)
  | httpError (status : ℕ)
  | transportError
deriving DecidableEq

/-- One iteration of the enrichment loop in getSoundStatAudioFeatures: on a
successful response carrying a features object the map gains an entry for the
track id; a non-success status, a payload without features, or a thrown error
is logged and skipped, leaving the map unchanged. -/
def featStep (respond : String → SoundStatResponse)
    (fm : List (String × AudioFeatures)) (track : SpotifyTrack) :
    List (String × AudioFeatures) :=
  match respond track.id with
  | SoundStatResponse.httpOk (some p) =>
      mapSet fm track.id
        ⟨track.id, p.valence, p.energy, p.acousticness, p.danceability, p.tempo⟩
  | _ => fm

/-- getSoundStatAudioFeatures: deduplicate, then fold the sequential
per-track request loop over the unique tracks, starting from an empty map.
The loop body catches every per-track failure, so the function is total. -/
def getSoundStatAudioFeatures (tracks : List SpotifyTrack)
    (respond : String → SoundStatResponse) : List (String × AudioFeatures) :=
  (uniqueTracks tracks).foldl (featStep respond) []

/-- The features collected by the forEach loop in calculateAggregateMood:
one entry per input track occurrence whose id has a features entry. -/
def matchedFeatures (tracks : List SpotifyTrack)
    (audioFeatures : List (String × AudioFeatures)) : List AudioFeatures :=
  tracks.filterMap (fun t => mapGet audioFeatures t.id)

/-- const average = (arr) => arr.reduce((a, b) => a + b, 0) / arr.length. -/
def average (arr : List ℚ) : ℚ :=
  arr.foldl (· + ·) 0 / (arr.length : ℚ)

/-- calculateAggregateMood: null when the track list or the features map is
empty, or when no track matched; otherwise the means of the collected metric
lists together with trackCount and analyzedCount. -/
def calculateAggregateMood (tracks : List SpotifyTrack)
    (audioFeatures : List (String × AudioFeatures)) : Option MoodData :=
  if tracks.length = 0 ∨ audioFeatures.length = 0 then none
  else
    let valences := (matchedFeatures tracks audioFeatures).map AudioFeatures.valence
    let energies := (matchedFeatures tracks audioFeatures).map AudioFeatures.energy
    let acousticnesses :=
      (matchedFeatures tracks audioFeatures).map AudioFeatures.acousticness
    if valences.length = 0 then none
    else
      some ⟨average valences, average energies, average acousticnesses,
            tracks.length, valences.length⟩

/-- Gradient string of the FIRE branch. -/
def fireGradient : String :=
  "linear-gradient(135deg, #ff6b00 0%, #ff0000 50%, #ffaa00 100%)"

/-- Gradient string of the WATER branch. -/
def waterGradient : String :=
  "linear-gradient(135deg, #000814 0%, #003566 50%, #001d3d 100%)"

/-- Gradient string of the AIR branch. -/
def airGradient : String :=
  "linear-gradient(135deg, #e0f7ff 0%, #87ceeb 50%, #b8d4e6 100%)"

/-- Gradient string of the AETHER branch. -/
def aetherGradient : String :=
  "linear-gradient(135deg, #0a0014 0%, #1a0033 50%, #2d1b47 100%)"

/-- Gradient string of the EARTH branch. -/
def earthGradient : String :=
  "linear-gradient(135deg, #0d1b0d 0%, #1a3319 50%, #0f2511 100%)"

/-- mapToElement: the ordered threshold rules of the classifier. The call
new Date().toISOString() is modelled by the date parameter. -/
def mapToElement (mood : MoodData) (tracks : List SpotifyTrack)
    (date : String) : ElementData :=
  if 0.7 < mood.avgEnergy ∧ 0.6 < mood.avgValence then
    ⟨ElementName.FIRE, fireGradient, "Euphoric & Intense", mood, date, tracks⟩
  else if mood.avgEnergy < 0.5 ∧ mood.avgValence < 0.6 then
    ⟨ElementName.WATER, waterGradient, "Flowing & Emotional", mood, date, tracks⟩
  else if 0.6 < mood.avgValence ∧ 0.4 ≤ mood.avgEnergy ∧ mood.avgEnergy ≤ 0.7 then
    ⟨ElementName.AIR, airGradient, "Light & Uplifting", mood, date, tracks⟩
  else if 0.5 < mood.avgAcousticness ∧ mood.avgEnergy < 0.5 then
    ⟨ElementName.AETHER, aetherGradient, "Ethereal & Transcendent", mood, date, tracks⟩
  else
    ⟨ElementName.EARTH, earthGradient, "Grounded & Melancholic", mood, date, tracks⟩

/-- One item of the recently-played response body
(data.items: { track: {id, name, artists}, played_at }). -/
structure RecentlyPlayedItem where
  trackId : String
  trackName : String
  artistNames : List String
  played_at : String
deriving DecidableEq

/-- Outcome of an HTTP request as seen by a caller: a parsed successful body,
a non-success status (the code throws and catches it), or a transport error. -/
inductive HttpResult (α : Type) where
  | ok (body : α)
  | httpError (statusText : String)
  | transportError
deriving DecidableEq

/-- getRecentlyPlayed: on success map the items to tracks; a non-success
HTTP status (thrown then caught) or a transport error yields the empty list. -/
def getRecentlyPlayed (resp : HttpResult (List RecentlyPlayedItem)) :
    List SpotifyTrack :=
  match resp with
  | HttpResult.ok items =>
      items.map (fun it => ⟨it.trackId, it.trackName, it.artistNames, it.played_at⟩)
  | HttpResult.httpError _ => []
  | HttpResult.transportError => []

/-- analyzeDailyMood after a successful token exchange: fetch, enrich,
aggregate, classify; none when there are no tracks or no mood. -/
def analyzeDailyMood (recentResp : HttpResult (List RecentlyPlayedItem))
    (respond : String → SoundStatResponse) (date : String) : Option ElementData :=
  let tracks := getRecentlyPlayed recentResp
  if tracks.length = 0 then none
  else
    match calculateAggregateMood tracks (getSoundStatAudioFeatures tracks respond) with
    | none => none
    | some mood => some (mapToElement mood tracks date)

/-- Observable outcome of one run of main. -/
structure RunOutcome where
  fileWritten : Bool
  exitCode : ℕ
deriving DecidableEq

/-- main after credential validation and token acquisition succeed: the
output file is written exactly when analyzeDailyMood produced a result, and
the process exits with status 0 either way. -/
def mainRun (recentResp : HttpResult (List RecentlyPlayedItem))
    (respond : String → SoundStatResponse) (date : String) : RunOutcome :=
  match analyzeDailyMood recentResp respond date with
  | some _ => ⟨true, 0⟩
  | none => ⟨false, 0⟩

/-- The classifier rules exactly as the specification words them: five
mutually-ordered rules, first match wins, EARTH the unconditional default.
Stated separately from mapToElement so that agreement between the two is a
theorem, not a definition. -/
def specClassify (m : MoodData) : ElementName :=
  if 0.7 < m.avgEnergy ∧ 0.6 < m.avgValence then ElementName.FIRE
  else if m.avgEnergy < 0.5 ∧ m.avgValence < 0.6 then ElementName.WATER
  else if 0.6 < m.avgValence ∧ 0.4 ≤ m.avgEnergy ∧ m.avgEnergy ≤ 0.7 then
    ElementName.AIR
  else if 0.5 < m.avgAcousticness ∧ m.avgEnergy < 0.5 then ElementName.AETHER
  else ElementName.EARTH

/-- The input occurrences that contribute to the aggregate: tracks of the
input sequence, in order and with multiplicity, whose id has a features entry. -/
def matchedOccurrences (tracks : List SpotifyTrack)
    (audioFeatures : List (String × AudioFeatures)) : List SpotifyTrack :=
  tracks.filter (fun t => (mapGet audioFeatures t.id).isSome)

/-- The metric a given occurrence contributes, read through the keyed lookup. -/
def occurrenceMetric (audioFeatures : List (String × AudioFeatures))
    (proj : AudioFeatures → ℚ) (t : SpotifyTrack) : ℚ :=
  (mapGet audioFeatures t.id).elim 0 proj

/-- The three metrics of a features entry that the pipeline can observe;
danceability and tempo are excluded. -/
def observableTriple (f : AudioFeatures) : ℚ × ℚ × ℚ :=
  (f.valence, f.energy, f.acousticness)

/-- Concrete fixture: a track with id idA. -/
def trackA : SpotifyTrack := ⟨"idA", "Song A", ["Artist A"], "2024-01-01T00:00:00Z"⟩

/-- Concrete fixture: a second play of the track with id idA (same id,
different playedAt, hence a different Track value). -/
def trackA2 : SpotifyTrack := ⟨"idA", "Song A", ["Artist A"], "2024-01-01T02:00:00Z"⟩

/-- Concrete fixture: a track with id idB. -/
def trackB : SpotifyTrack := ⟨"idB", "Song B", ["Artist B"], "2024-01-01T01:00:00Z"⟩

/-- Concrete fixture: features for idA. -/
def featA : AudioFeatures := ⟨"idA", 1, 1, 0, 0, 120⟩

/-- Concrete fixture: features for idA agreeing with featA on valence,
energy and acousticness but differing in danceability and tempo. -/
def featAd : AudioFeatures := ⟨"idA", 1, 1, 0, 1/2, 99⟩

/-- Concrete fixture: features for idB. -/
def featB : AudioFeatures := ⟨"idB", 0, 0, 1, 0, 100⟩

example : (mapToElement ⟨0.65, 0.75, 0.1, 1, 1⟩ [] "d").name = ElementName.FIRE := by
  norm_num [mapToElement]

example : uniqueTracks [trackA, trackA2] = [trackA2] := by decide

example : calculateAggregateMood [trackA] [("idA", featA)]
    = some ⟨1, 1, 0, 1, 1⟩ := by
  norm_num [calculateAggregateMood, matchedFeatures, mapGet, average, trackA, featA,
    List.filterMap_cons]

/-! ### Lemmas about the JavaScript Map model -/

lemma mapGet_nil {α : Type} (key : String) :
    mapGet ([] : List (String × α)) key = none := rfl

lemma mapGet_cons {α : Type} (k : String) (v : α) (rest : List (String × α))
    (key : String) :
    mapGet ((k, v) :: rest) key = if key = k then some v else mapGet rest key := rfl

lemma mapGet_eq_none_iff {α : Type} (m : List (String × α)) (key : String) :
    mapGet m key = none ↔ key ∉ m.map Prod.fst := by
  induction m with
  | nil => simp [mapGet]
  | cons p rest ih =>
    obtain ⟨k, v⟩ := p
    by_cases h : key = k
    · subst h
      simp [mapGet_cons]
    · simp [mapGet_cons, h, ih]

lemma mapGet_isSome_iff {α : Type} (m : List (String × α)) (key : String) :
    (mapGet m key).isSome ↔ key ∈ m.map Prod.fst := by
  induction m with
  | nil => simp [mapGet]
  | cons p rest ih =>
    obtain ⟨k, v⟩ := p
    by_cases h : key = k
    · subst h
      simp [mapGet_cons]
    · simp [mapGet_cons, h, ih]

lemma mapGet_append {α : Type} (xs ys : List (String × α)) (key : String) :
    mapGet (xs ++ ys) key = (mapGet xs key).elim (mapGet ys key) some := by
  induction xs with
  | nil => simp [mapGet]
  | cons p rest ih =>
    obtain ⟨k, v⟩ := p
    by_cases h : key = k
    · subst h
      simp [mapGet_cons]
    · simp [mapGet_cons, h, ih]

lemma mapGet_update_self {α : Type} (m : List (String × α)) (k : String) (v : α) :
    mapGet (m.map (fun p => if p.1 = k then (k, v) else p)) k
      = if k ∈ m.map Prod.fst then some v else none := by
  induction m with
  | nil => simp [mapGet]
  | cons p rest ih =>
    obtain ⟨k₀, v₀⟩ := p
    by_cases h : k₀ = k
    · subst h
      simp [mapGet_cons]
    · have h₂ : ¬ k = k₀ := fun hk => h hk.symm
      simp only [List.map_cons, if_neg h, mapGet_cons, if_neg h₂, ih]
      by_cases hk : k ∈ List.map Prod.fst rest
      · simp [hk, List.mem_cons]
      · simp [hk, h₂, List.mem_cons]

lemma mapGet_update_ne {α : Type} (m : List (String × α)) (k : String) (v : α)
    (key : String) (h : key ≠ k) :
    mapGet (m.map (fun p => if p.1 = k then (k, v) else p)) key = mapGet m key := by
  induction m with
  | nil => simp
  | cons p rest ih =>
    obtain ⟨k₀, v₀⟩ := p
    by_cases h₀ : k₀ = k
    · subst h₀
      simp [mapGet_cons, h, ih]
    · simp only [List.map_cons, if_neg h₀, mapGet_cons, ih]

lemma mapSet_get_self {α : Type} (m : List (String × α)) (k : String) (v : α) :
    mapGet (mapSet m k v) k = some v := by
  unfold mapSet
  by_cases h : k ∈ m.map Prod.fst
  · rw [if_pos h, mapGet_update_self, if_pos h]
  · rw [if_neg h, mapGet_append, (mapGet_eq_none_iff m k).mpr h]
    simp [mapGet_cons]

lemma mapSet_get_ne {α : Type} (m : List (String × α)) (k : String) (v : α)
    (key : String) (h : key ≠ k) :
    mapGet (mapSet m k v) key = mapGet m key := by
  unfold mapSet
  by_cases hm : k ∈ m.map Prod.fst
  · rw [if_pos hm, mapGet_update_ne _ _ _ _ h]
  · rw [if_neg hm, mapGet_append]
    cases hx : mapGet m key with
    | some w => rfl
    | none => simp [mapGet_cons, mapGet_nil, h]

lemma mapSet_keys {α : Type} (m : List (String × α)) (k : String) (v : α) :
    (mapSet m k v).map Prod.fst =
      if k ∈ m.map Prod.fst then m.map Prod.fst else m.map Prod.fst ++ [k] := by
  unfold mapSet
  by_cases h : k ∈ m.map Prod.fst
  · rw [if_pos h, if_pos h, List.map_map]
    refine List.map_congr_left (fun p _ => ?_)
    by_cases hp : p.1 = k
    · simp [hp]
    · simp [hp]
  · rw [if_neg h, if_neg h, List.map_append]
    rfl

lemma mapSet_keys_nodup {α : Type} (m : List (String × α)) (k : String) (v : α)
    (h : (m.map Prod.fst).Nodup) : ((mapSet m k v).map Prod.fst).Nodup := by
  rw [mapSet_keys]
  by_cases hm : k ∈ m.map Prod.fst
  · rwa [if_pos hm]
  · rw [if_neg hm, List.nodup_append]
    exact ⟨h, List.nodup_singleton k, fun a ha hb => hm (by simpa [List.mem_singleton.mp hb] using ha)⟩

lemma mapSet_mem_entries {α : Type} {p : String × α} {m : List (String × α)}
    {k : String} {v : α} (hp : p ∈ mapSet m k v) : p ∈ m ∨ p = (k, v) := by
  unfold mapSet at hp
  by_cases h : k ∈ m.map Prod.fst
  · rw [if_pos h] at hp
    obtain ⟨q, hq, hpq⟩ := List.mem_map.mp hp
    by_cases hqk : q.1 = k
    · right
      rw [← hpq, if_pos hqk]
    · left
      rwa [← hpq, if_neg hqk]
  · rw [if_neg h, List.mem_append] at hp
    rcases hp with hp | hp
    · exact Or.inl hp
    · exact Or.inr (List.mem_singleton.mp hp)

/-! ### Lemmas about mapOfPairs (the deduplication map) -/

lemma foldl_mapSet_get {α : Type} (l : List (String × α)) :
    ∀ (acc : List (String × α)) (key : String),
      mapGet (l.foldl (fun m p => mapSet m p.1 p.2) acc) key
        = (mapGet l.reverse key).elim (mapGet acc key) some := by
  induction l with
  | nil =>
    intro acc key
    simp [mapGet_nil]
  | cons p l ih =>
    intro acc key
    obtain ⟨k, v⟩ := p
    rw [List.foldl_cons, ih, List.reverse_cons, mapGet_append]
    cases hx : mapGet l.reverse key with
    | some w => rfl
    | none =>
      simp only [Option.elim]
      by_cases hk : key = k
      · subst hk
        rw [mapSet_get_self]
        simp [mapGet_cons, Option.elim]
      · rw [mapSet_get_ne _ _ _ _ hk]
        simp [mapGet_cons, mapGet_nil, hk, Option.elim]

lemma foldl_mapSet_keys_nodup {α : Type} (l : List (String × α)) :
    ∀ acc : List (String × α), (acc.map Prod.fst).Nodup →
      ((l.foldl (fun m p => mapSet m p.1 p.2) acc).map Prod.fst).Nodup := by
  induction l with
  | nil => intro acc h; exact h
  | cons p l ih =>
    intro acc h
    exact ih _ (mapSet_keys_nodup _ _ _ h)

lemma foldl_mapSet_entries {α : Type} (P : String × α → Prop) (l : List (String × α)) :
    ∀ acc : List (String × α), (∀ p ∈ acc, P p) → (∀ p ∈ l, P p) →
      ∀ p ∈ l.foldl (fun m q => mapSet m q.1 q.2) acc, P p := by
  induction l with
  | nil => intro acc hacc _ p hp; exact hacc p hp
  | cons q l ih =>
    obtain ⟨qk, qv⟩ := q
    intro acc hacc hl p hp
    refine ih _ ?_ (fun r hr => hl r (List.mem_cons_of_mem _ hr)) p hp
    intro r hr
    rcases mapSet_mem_entries hr with h | h
    · exact hacc r h
    · rw [h]
      exact hl (qk, qv) (List.mem_cons_self _ _)

lemma jsUniqueMap_get (tracks : List SpotifyTrack) (key : String) :
    mapGet (jsUniqueMap tracks) key
      = mapGet (tracks.reverse.map (fun s => (s.id, s))) key := by
  unfold jsUniqueMap mapOfPairs
  rw [foldl_mapSet_get, ← List.map_reverse]
  cases mapGet (tracks.reverse.map (fun s => (s.id, s))) key <;> rfl

lemma jsUniqueMap_keys_nodup (tracks : List SpotifyTrack) :
    ((jsUniqueMap tracks).map Prod.fst).Nodup :=
  foldl_mapSet_keys_nodup _ [] (by simp)

lemma jsUniqueMap_entry_id (tracks : List SpotifyTrack) :
    ∀ p ∈ jsUniqueMap tracks, p.2.id = p.1 := by
  refine foldl_mapSet_entries _ _ [] (by simp) ?_
  intro p hp
  obtain ⟨t, ht, rfl⟩ := List.mem_map.mp hp
  rfl

lemma requestedIds_eq_keys (tracks : List SpotifyTrack) :
    requestedIds tracks = (jsUniqueMap tracks).map Prod.fst := by
  unfold requestedIds uniqueTracks
  rw [List.map_map]
  exact List.map_congr_left (fun p hp => jsUniqueMap_entry_id tracks p hp)

lemma jsUniqueMap_key_mem_iff (tracks : List SpotifyTrack) (key : String) :
    key ∈ (jsUniqueMap tracks).map Prod.fst ↔ key ∈ tracks.map SpotifyTrack.id := by
  rw [← mapGet_isSome_iff, jsUniqueMap_get, mapGet_isSome_iff, List.map_map]
  simp [Function.comp]

/-! ### Lemmas about the aggregator -/

lemma foldl_add_eq_sum (l : List ℚ) : ∀ a : ℚ, l.foldl (· + ·) a = a + l.sum := by
  induction l with
  | nil => intro a; simp
  | cons x l ih =>
    intro a
    rw [List.foldl_cons, ih, List.sum_cons]
    ring

lemma average_eq_sum_div (l : List ℚ) : average l = l.sum / (l.length : ℚ) := by
  unfold average
  rw [foldl_add_eq_sum, zero_add]

lemma matchedFeatures_nil (tracks : List SpotifyTrack) :
    matchedFeatures tracks [] = [] :=
  List.filterMap_eq_nil_iff.mpr (fun t _ => rfl)

lemma matchedFeatures_cons (t : SpotifyTrack) (tracks : List SpotifyTrack)
    (fm : List (String × AudioFeatures)) :
    matchedFeatures (t :: tracks) fm =
      match mapGet fm t.id with
      | some f => f :: matchedFeatures tracks fm
      | none => matchedFeatures tracks fm := by
  unfold matchedFeatures
  rw [List.filterMap_cons]
  cases mapGet fm t.id <;> rfl

lemma calcMood_eq_build (tracks : List SpotifyTrack)
    (fm : List (String × AudioFeatures)) :
    calculateAggregateMood tracks fm =
      if tracks = [] ∨ (matchedFeatures tracks fm).length = 0 then none
      else
        some ⟨average ((matchedFeatures tracks fm).map AudioFeatures.valence),
              average ((matchedFeatures tracks fm).map AudioFeatures.energy),
              average ((matchedFeatures tracks fm).map AudioFeatures.acousticness),
              tracks.length, (matchedFeatures tracks fm).length⟩ := by
  unfold calculateAggregateMood
  by_cases ht : tracks.length = 0
  · have h0 : tracks = [] := List.length_eq_zero.mp ht
    subst h0
    simp [matchedFeatures]
  · by_cases hf : fm.length = 0
    · have h0 : fm = [] := List.length_eq_zero.mp hf
      subst h0
      simp [ht, matchedFeatures_nil]
    · have hne : ¬(tracks.length = 0 ∨ fm.length = 0) := by tauto
      rw [if_neg hne]
      have ht' : ¬ tracks = [] := fun h => ht (by simp [h])
      simp only [List.length_map]
      by_cases hm : (matchedFeatures tracks fm).length = 0
      · simp [hm, ht']
      · simp [hm, ht']

lemma matchedFeatures_map_of_all_some (proj : AudioFeatures → ℚ)
    (fm : List (String × AudioFeatures)) :
    ∀ tracks : List SpotifyTrack, (∀ t ∈ tracks, (mapGet fm t.id).isSome) →
      (matchedFeatures tracks fm).map proj
        = tracks.map (fun t => (mapGet fm t.id).elim 0 proj) := by
  intro tracks
  induction tracks with
  | nil => intro _; rfl
  | cons t tracks ih =>
    intro h
    have ht := h t (List.mem_cons_self t tracks)
    obtain ⟨f, hf⟩ := Option.isSome_iff_exists.mp ht
    simp only [matchedFeatures_cons, hf, List.map_cons]
    rw [ih (fun s hs => h s (List.mem_cons_of_mem _ hs))]
    rfl

lemma matchedFeatures_map_eq_occ (fm : List (String × AudioFeatures))
    (proj : AudioFeatures → ℚ) :
    ∀ tracks : List SpotifyTrack,
      (matchedFeatures tracks fm).map proj
        = (matchedOccurrences tracks fm).map (occurrenceMetric fm proj) := by
  intro tracks
  induction tracks with
  | nil => rfl
  | cons t tracks ih =>
    rw [matchedFeatures_cons]
    unfold matchedOccurrences
    rw [List.filter_cons]
    cases hf : mapGet fm t.id with
    | some f =>
      have hocc : occurrenceMetric fm proj t = proj f := by
        unfold occurrenceMetric
        rw [hf]
        rfl
      simp [matchedOccurrences, hf, hocc, ih]
    | none =>
      simp [matchedOccurrences, hf, ih]

lemma matchedFeatures_length_eq_occ (tracks : List SpotifyTrack)
    (fm : List (String × AudioFeatures)) :
    (matchedFeatures tracks fm).length = (matchedOccurrences tracks fm).length := by
  have h := congrArg List.length (matchedFeatures_map_eq_occ fm AudioFeatures.valence tracks)
  simpa using h

lemma matchedFeatures_triple_map_congr (fm₁ fm₂ : List (String × AudioFeatures)) :
    ∀ tracks : List SpotifyTrack,
      (∀ t ∈ tracks, (mapGet fm₁ t.id).map observableTriple
          = (mapGet fm₂ t.id).map observableTriple) →
      (matchedFeatures tracks fm₁).map observableTriple
        = (matchedFeatures tracks fm₂).map observableTriple := by
  intro tracks
  induction tracks with
  | nil => intro _; rfl
  | cons t tracks ih =>
    intro h
    have ht := h t (List.mem_cons_self t tracks)
    have hrest := ih (fun s hs => h s (List.mem_cons_of_mem _ hs))
    rw [matchedFeatures_cons, matchedFeatures_cons]
    cases h₁ : mapGet fm₁ t.id with
    | none =>
      rw [h₁] at ht
      cases h₂ : mapGet fm₂ t.id with
      | none => exact hrest
      | some g =>
        rw [h₂] at ht
        simp at ht
    | some f =>
      rw [h₁] at ht
      cases h₂ : mapGet fm₂ t.id with
      | none =>
        rw [h₂] at ht
        simp at ht
      | some g =>
        rw [h₂] at ht
        simp only [Option.map_some'] at ht
        have hfg : observableTriple f = observableTriple g := Option.some.inj ht
        simp only [List.map_cons, hfg, hrest]

lemma mapGet_of_mem_nodup {α : Type} :
    ∀ {m : List (String × α)}, (m.map Prod.fst).Nodup →
      ∀ {k : String} {v : α}, (k, v) ∈ m → mapGet m k = some v := by
  intro m
  induction m with
  | nil =>
    intro _ k v hm
    exact absurd hm (List.not_mem_nil _)
  | cons p rest ih =>
    obtain ⟨k₀, v₀⟩ := p
    intro hnd k v hm
    rw [List.map_cons, List.nodup_cons] at hnd
    rcases List.mem_cons.mp hm with h | h
    · rw [Prod.mk.injEq] at h
      obtain ⟨hk, hv⟩ := h
      subst hk
      subst hv
      rw [mapGet_cons, if_pos rfl]
    · by_cases hk : k = k₀
      · subst hk
        have : k ∈ rest.map Prod.fst :=
          List.mem_map.mpr ⟨(k, v), h, rfl⟩
        exact absurd this hnd.1
      · rw [mapGet_cons, if_neg hk]
        exact ih hnd.2 h

/-! ### Lemmas about the enrichment loop -/

lemma featFold_get_isSome (respond : String → SoundStatResponse) :
    ∀ (l : List SpotifyTrack) (acc : List (String × AudioFeatures)) (key : String),
      (mapGet (l.foldl (featStep respond) acc) key).isSome ↔
        ((key ∈ l.map SpotifyTrack.id ∧
            ∃ p, respond key = SoundStatResponse.httpOk (some p)) ∨
          (mapGet acc key).isSome) := by
  intro l
  induction l with
  | nil =>
    intro acc key
    simp
  | cons t l ih =>
    intro acc key
    rw [List.foldl_cons]
    by_cases hk : key = t.id
    · subst hk
      cases hr : respond t.id with
      | httpOk features =>
        cases features with
        | some p =>
          have hstep : featStep respond acc t = mapSet acc t.id
              ⟨t.id, p.valence, p.energy, p.acousticness, p.danceability, p.tempo⟩ := by
            unfold featStep
            rw [hr]
          rw [hstep, ih]
          simp [mapSet_get_self, hr]
        | none =>
          have hstep : featStep respond acc t = acc := by
            unfold featStep
            rw [hr]
          rw [hstep, ih]
          simp [hr]
      | httpError s =>
        have hstep : featStep respond acc t = acc := by
          unfold featStep
          rw [hr]
        rw [hstep, ih]
        simp [hr]
      | transportError =>
        have hstep : featStep respond acc t = acc := by
          unfold featStep
          rw [hr]
        rw [hstep, ih]
        simp [hr]
    · have hacc : mapGet (featStep respond acc t) key = mapGet acc key := by
        unfold featStep
        cases respond t.id with
        | httpOk features =>
          cases features with
          | some p => exact mapSet_get_ne _ _ _ _ hk
          | none => rfl
        | httpError s => rfl
        | transportError => rfl
      rw [ih, hacc]
      simp [hk]

/-! ### Claim theorems -/

/-- Claim C1 counterexample: the summary with avgValence 0.65, avgEnergy 0.75,
avgAcousticness 0.1 satisfies the FIRE rule (energy above 0.7 and valence
above 0.6), so mapToElement classifies it FIRE, not EARTH as the claim
states. -/
theorem mapToElement_fire_point_not_earth :
    (mapToElement ⟨0.65, 0.75, 0.1, 1, 1⟩ [] "2024-01-01T00:00:00Z").name
        = ElementName.FIRE ∧
      (mapToElement ⟨0.65, 0.75, 0.1, 1, 1⟩ [] "2024-01-01T00:00:00Z").name
        ≠ ElementName.EARTH := by
  have h : (mapToElement ⟨0.65, 0.75, 0.1, 1, 1⟩ [] "2024-01-01T00:00:00Z").name
      = ElementName.FIRE := by
    norm_num [mapToElement]
  refine ⟨h, ?_⟩
  rw [h]
  decide

lemma mapToElement_name (m : MoodData) (tracks : List SpotifyTrack) (date : String) :
    (mapToElement m tracks date).name = specClassify m := by
  unfold mapToElement specClassify
  split_ifs <;> rfl

/-- Claim C1 (amended): mapToElement agrees with the five ordered rules of the
specification evaluated first-match-first with EARTH as the unconditional
default; a summary with avgEnergy 0.45 and avgValence 0.65 is AIR for every
acousticness; any summary with avgEnergy above 0.7 and avgValence above 0.6 is
FIRE regardless of acousticness; and the summary with avgValence 0.65,
avgEnergy 0.75, avgAcousticness 0.1 is FIRE (not EARTH as originally
claimed). -/
theorem mapToElement_rule_order :
    (∀ (m : MoodData) (tracks : List SpotifyTrack) (date : String),
        (mapToElement m tracks date).name = specClassify m)
    ∧ (∀ (a : ℚ) (tc ac : ℕ) (tracks : List SpotifyTrack) (date : String),
        (mapToElement ⟨0.65, 0.45, a, tc, ac⟩ tracks date).name = ElementName.AIR)
    ∧ (∀ (m : MoodData) (tracks : List SpotifyTrack) (date : String),
        0.7 < m.avgEnergy → 0.6 < m.avgValence →
        (mapToElement m tracks date).name = ElementName.FIRE)
    ∧ (∀ (tracks : List SpotifyTrack) (date : String),
        (mapToElement ⟨0.65, 0.75, 0.1, 1, 1⟩ tracks date).name
          = ElementName.FIRE) := by
  refine ⟨mapToElement_name, ?_, ?_, ?_⟩
  · intro a tc ac tracks date
    rw [mapToElement_name]
    norm_num [specClassify]
  · intro m tracks date he hv
    rw [mapToElement_name]
    unfold specClassify
    rw [if_pos ⟨he, hv⟩]
  · intro tracks date
    rw [mapToElement_name]
    norm_num [specClassify]

/-- Witness instantiating the FIRE clause of the amended rule-order theorem at
a concrete summary. -/
theorem mapToElement_rule_order_witness :
    (mapToElement ⟨0.8, 0.9, 0.2, 2, 2⟩ [] "2024-01-02T00:00:00Z").name
      = ElementName.FIRE :=
  mapToElement_rule_order.2.2.1 ⟨0.8, 0.9, 0.2, 2, 2⟩ [] "2024-01-02T00:00:00Z"
    (by norm_num) (by norm_num)

/-- Claim C2: for a non-empty track sequence in which every track id has a
features entry, calculateAggregateMood returns a summary whose trackCount and
analyzedCount both equal the sequence length and whose three averages are the
arithmetic means of each metric over all tracks of the sequence. -/
theorem calculateAggregateMood_all_matched (tracks : List SpotifyTrack)
    (fm : List (String × AudioFeatures)) (hne : tracks ≠ [])
    (hall : ∀ t ∈ tracks, (mapGet fm t.id).isSome) :
    ∃ m : MoodData, calculateAggregateMood tracks fm = some m ∧
      m.trackCount = tracks.length ∧
      m.analyzedCount = tracks.length ∧
      m.avgValence = (tracks.map
          (fun t => (mapGet fm t.id).elim 0 AudioFeatures.valence)).sum
          / (tracks.length : ℚ) ∧
      m.avgEnergy = (tracks.map
          (fun t => (mapGet fm t.id).elim 0 AudioFeatures.energy)).sum
          / (tracks.length : ℚ) ∧
      m.avgAcousticness = (tracks.map
          (fun t => (mapGet fm t.id).elim 0 AudioFeatures.acousticness)).sum
          / (tracks.length : ℚ) := by
  have hv := matchedFeatures_map_of_all_some AudioFeatures.valence fm tracks hall
  have he := matchedFeatures_map_of_all_some AudioFeatures.energy fm tracks hall
  have ha := matchedFeatures_map_of_all_some AudioFeatures.acousticness fm tracks hall
  have hlen : (matchedFeatures tracks fm).length = tracks.length := by
    have h := congrArg List.length hv
    simpa using h
  have hcond : ¬(tracks = [] ∨ (matchedFeatures tracks fm).length = 0) := by
    rintro (h | h)
    · exact hne h
    · rw [hlen, List.length_eq_zero] at h
      exact hne h
  refine ⟨⟨average ((matchedFeatures tracks fm).map AudioFeatures.valence),
          average ((matchedFeatures tracks fm).map AudioFeatures.energy),
          average ((matchedFeatures tracks fm).map AudioFeatures.acousticness),
          tracks.length, (matchedFeatures tracks fm).length⟩,
        ?_, rfl, hlen, ?_, ?_, ?_⟩
  · rw [calcMood_eq_build, if_neg hcond]
  · show average ((matchedFeatures tracks fm).map AudioFeatures.valence) = _
    rw [average_eq_sum_div, hv, List.length_map]
  · show average ((matchedFeatures tracks fm).map AudioFeatures.energy) = _
    rw [average_eq_sum_div, he, List.length_map]
  · show average ((matchedFeatures tracks fm).map AudioFeatures.acousticness) = _
    rw [average_eq_sum_div, ha, List.length_map]

/-- Witness instantiating the all-matched aggregator theorem at one track with
one matching features entry. -/
theorem calculateAggregateMood_all_matched_witness :
    ∃ m : MoodData, calculateAggregateMood [trackA] [("idA", featA)] = some m ∧
      m.trackCount = [trackA].length ∧
      m.analyzedCount = [trackA].length ∧
      m.avgValence = ([trackA].map
          (fun t => (mapGet [("idA", featA)] t.id).elim 0 AudioFeatures.valence)).sum
          / (([trackA].length : ℕ) : ℚ) ∧
      m.avgEnergy = ([trackA].map
          (fun t => (mapGet [("idA", featA)] t.id).elim 0 AudioFeatures.energy)).sum
          / (([trackA].length : ℕ) : ℚ) ∧
      m.avgAcousticness = ([trackA].map
          (fun t => (mapGet [("idA", featA)] t.id).elim 0 AudioFeatures.acousticness)).sum
          / (([trackA].length : ℕ) : ℚ) :=
  calculateAggregateMood_all_matched [trackA] [("idA", featA)]
    (by decide) (by decide)

/-- Claim C3 counterexample: with the same track played twice plus a second
track, removing the duplicate occurrence changes the aggregated mean valence
(two thirds versus one half), so the aggregator does not ignore duplicates. -/
theorem calculateAggregateMood_counts_duplicates :
    (calculateAggregateMood [trackA, trackA, trackB]
        [("idA", featA), ("idB", featB)]).map MoodData.avgValence
      ≠ (calculateAggregateMood [trackA, trackB]
        [("idA", featA), ("idB", featB)]).map MoodData.avgValence := by
  norm_num [calculateAggregateMood, matchedFeatures, mapGet, average,
    trackA, trackB, featA, featB, List.filterMap_cons,
    (show ("idB" : String) ≠ "idA" by decide), (show ("idA" : String) ≠ "idB" by decide)]

/-- Claim C3 (amended): the aggregator counts every occurrence: each
occurrence of a track whose identifier has a features entry contributes the
same keyed feature values once per occurrence, so analyzedCount is the number
of matched occurrences and each mean is the occurrence-weighted arithmetic
mean; removing duplicate occurrences can therefore change the means. -/
theorem calculateAggregateMood_occurrence_means (tracks : List SpotifyTrack)
    (fm : List (String × AudioFeatures)) (m : MoodData)
    (h : calculateAggregateMood tracks fm = some m) :
    m.analyzedCount = (matchedOccurrences tracks fm).length ∧
    m.avgValence = ((matchedOccurrences tracks fm).map
        (occurrenceMetric fm AudioFeatures.valence)).sum
        / ((matchedOccurrences tracks fm).length : ℚ) ∧
    m.avgEnergy = ((matchedOccurrences tracks fm).map
        (occurrenceMetric fm AudioFeatures.energy)).sum
        / ((matchedOccurrences tracks fm).length : ℚ) ∧
    m.avgAcousticness = ((matchedOccurrences tracks fm).map
        (occurrenceMetric fm AudioFeatures.acousticness)).sum
        / ((matchedOccurrences tracks fm).length : ℚ) := by
  rw [calcMood_eq_build] at h
  by_cases hc : tracks = [] ∨ (matchedFeatures tracks fm).length = 0
  · rw [if_pos hc] at h
    exact absurd h (by simp)
  · rw [if_neg hc] at h
    have hm := Option.some.inj h
    subst hm
    refine ⟨matchedFeatures_length_eq_occ tracks fm, ?_, ?_, ?_⟩
    · show average ((matchedFeatures tracks fm).map AudioFeatures.valence) = _
      rw [average_eq_sum_div, matchedFeatures_map_eq_occ fm AudioFeatures.valence tracks,
        List.length_map]
    · show average ((matchedFeatures tracks fm).map AudioFeatures.energy) = _
      rw [average_eq_sum_div, matchedFeatures_map_eq_occ fm AudioFeatures.energy tracks,
        List.length_map]
    · show average ((matchedFeatures tracks fm).map AudioFeatures.acousticness) = _
      rw [average_eq_sum_div, matchedFeatures_map_eq_occ fm AudioFeatures.acousticness tracks,
        List.length_map]

/-- Witness instantiating the occurrence-weighted aggregator theorem at a
sequence containing a duplicated track. -/
theorem calculateAggregateMood_occurrence_means_witness :
    (⟨2/3, 2/3, 1/3, 3, 3⟩ : MoodData).analyzedCount
        = (matchedOccurrences [trackA, trackA, trackB]
            [("idA", featA), ("idB", featB)]).length ∧
    (⟨2/3, 2/3, 1/3, 3, 3⟩ : MoodData).avgValence
        = ((matchedOccurrences [trackA, trackA, trackB]
              [("idA", featA), ("idB", featB)]).map
            (occurrenceMetric [("idA", featA), ("idB", featB)] AudioFeatures.valence)).sum
          / ((matchedOccurrences [trackA, trackA, trackB]
              [("idA", featA), ("idB", featB)]).length : ℚ) ∧
    (⟨2/3, 2/3, 1/3, 3, 3⟩ : MoodData).avgEnergy
        = ((matchedOccurrences [trackA, trackA, trackB]
              [("idA", featA), ("idB", featB)]).map
            (occurrenceMetric [("idA", featA), ("idB", featB)] AudioFeatures.energy)).sum
          / ((matchedOccurrences [trackA, trackA, trackB]
              [("idA", featA), ("idB", featB)]).length : ℚ) ∧
    (⟨2/3, 2/3, 1/3, 3, 3⟩ : MoodData).avgAcousticness
        = ((matchedOccurrences [trackA, trackA, trackB]
              [("idA", featA), ("idB", featB)]).map
            (occurrenceMetric [("idA", featA), ("idB", featB)] AudioFeatures.acousticness)).sum
          / ((matchedOccurrences [trackA, trackA, trackB]
              [("idA", featA), ("idB", featB)]).length : ℚ) :=
  calculateAggregateMood_occurrence_means [trackA, trackA, trackB]
    [("idA", featA), ("idB", featB)] ⟨2/3, 2/3, 1/3, 3, 3⟩
    (by norm_num [calculateAggregateMood, matchedFeatures, mapGet, average,
      trackA, trackB, featA, featB, List.filterMap_cons,
      (show ("idB" : String) ≠ "idA" by decide), (show ("idA" : String) ≠ "idB" by decide)])

/-- Claim C4 counterexample: with two plays of the same track id, the unique
list built by the enricher keeps the second (last) occurrence, not the first
as the claim states. -/
theorem uniqueTracks_keeps_last_occurrence :
    uniqueTracks [trackA, trackA2] = [trackA2] ∧ trackA2 ≠ trackA := by
  constructor
  · decide
  · decide

/-- Claim C4 (amended): the enricher deduplicates by identifier with the last
occurrence winning: the unique-track list has pairwise distinct identifiers,
each of its entries is the last track of the input bearing its identifier,
exactly one analysis request is issued per identifier occurring in the input,
and the deduplication map realises the last-binding-wins lookup. -/
theorem uniqueTracks_last_wins_spec (tracks : List SpotifyTrack) :
    ((uniqueTracks tracks).map SpotifyTrack.id).Nodup ∧
    (∀ t ∈ uniqueTracks tracks,
        mapGet (tracks.reverse.map (fun s => (s.id, s))) t.id = some t) ∧
    (∀ key : String,
        List.count key (requestedIds tracks)
          = if key ∈ tracks.map SpotifyTrack.id then 1 else 0) ∧
    (∀ key : String,
        mapGet (jsUniqueMap tracks) key
          = mapGet (tracks.reverse.map (fun s => (s.id, s))) key) := by
  have hkeys := jsUniqueMap_keys_nodup tracks
  have hreq : requestedIds tracks = (jsUniqueMap tracks).map Prod.fst :=
    requestedIds_eq_keys tracks
  have hnodup : ((uniqueTracks tracks).map SpotifyTrack.id).Nodup := by
    have h1 : (uniqueTracks tracks).map SpotifyTrack.id = requestedIds tracks := rfl
    rw [h1, hreq]
    exact hkeys
  refine ⟨hnodup, ?_, ?_, jsUniqueMap_get tracks⟩
  · intro t ht
    obtain ⟨p, hp, rfl⟩ := List.mem_map.mp ht
    have hid := jsUniqueMap_entry_id tracks p hp
    have hp' : (p.1, p.2) ∈ jsUniqueMap tracks := by
      rw [Prod.mk.eta]
      exact hp
    have hget : mapGet (jsUniqueMap tracks) p.2.id = some p.2 := by
      rw [hid]
      exact mapGet_of_mem_nodup hkeys hp'
    rw [← jsUniqueMap_get]
    exact hget
  · intro key
    rw [hreq, List.count_eq_of_nodup hkeys]
    simp only [jsUniqueMap_key_mem_iff]

/-- Claim C5: calculateAggregateMood returns null exactly when the input
sequence is empty or no input track has a features entry; in particular an
empty features mapping forces null, and every other input yields a summary. -/
theorem calculateAggregateMood_none_iff (tracks : List SpotifyTrack)
    (fm : List (String × AudioFeatures)) :
    calculateAggregateMood tracks fm = none ↔
      (tracks = [] ∨ ∀ t ∈ tracks, mapGet fm t.id = none) := by
  rw [calcMood_eq_build]
  by_cases h : tracks = [] ∨ (matchedFeatures tracks fm).length = 0
  · rw [if_pos h]
    constructor
    · intro _
      rcases h with h | h
      · exact Or.inl h
      · right
        have hnil : matchedFeatures tracks fm = [] := List.length_eq_zero.mp h
        exact fun t ht => (List.filterMap_eq_nil_iff.mp hnil) t ht
    · intro _
      rfl
  · rw [if_neg h]
    push_neg at h
    constructor
    · intro hc
      exact absurd hc (by simp)
    · rintro (hr | hr)
      · exact absurd hr h.1
      · exfalso
        apply h.2
        rw [List.length_eq_zero]
        exact List.filterMap_eq_nil_iff.mpr (fun t ht => hr t ht)

/-- Claim C6: an identifier is present in the mapping returned by
getSoundStatAudioFeatures exactly when it occurs among the input tracks and
its request returned a successful response carrying a features object; every
failing track (non-success status, missing features object, or transport
error) is therefore absent, every other track is still processed, and the
modelled loop is a total function (no exception escapes). -/
theorem getSoundStatAudioFeatures_failure_absent
    (tracks : List SpotifyTrack) (respond : String → SoundStatResponse) :
    ∀ key : String,
      (mapGet (getSoundStatAudioFeatures tracks respond) key).isSome ↔
        (key ∈ tracks.map SpotifyTrack.id ∧
          ∃ p, respond key = SoundStatResponse.httpOk (some p)) := by
  intro key
  unfold getSoundStatAudioFeatures
  rw [featFold_get_isSome]
  have hmem : key ∈ (uniqueTracks tracks).map SpotifyTrack.id ↔
      key ∈ tracks.map SpotifyTrack.id := by
    have h1 : (uniqueTracks tracks).map SpotifyTrack.id = requestedIds tracks := rfl
    rw [h1, requestedIds_eq_keys]
    exact jsUniqueMap_key_mem_iff tracks key
  rw [hmem]
  simp [mapGet_nil]

/-- Claim C7: a non-success HTTP status from the recently-played endpoint is
caught inside getRecentlyPlayed and yields an empty track list, and the run
then ends like the zero-tracks case: no output file is written and the exit
status stays zero. -/
theorem getRecentlyPlayed_degrade_to_empty (statusText : String)
    (respond : String → SoundStatResponse) (date : String) :
    getRecentlyPlayed (HttpResult.httpError statusText) = [] ∧
    mainRun (HttpResult.httpError statusText) respond date
      = ⟨false, 0⟩ :=
  ⟨rfl, rfl⟩

/-- Claim C8: every summary actually produced by calculateAggregateMood has
analyzedCount at least one and at most trackCount; an all-miss input yields
null rather than a summary with analyzedCount zero. -/
theorem calculateAggregateMood_count_bounds (tracks : List SpotifyTrack)
    (fm : List (String × AudioFeatures)) (m : MoodData)
    (h : calculateAggregateMood tracks fm = some m) :
    1 ≤ m.analyzedCount ∧ m.analyzedCount ≤ m.trackCount := by
  rw [calcMood_eq_build] at h
  by_cases hc : tracks = [] ∨ (matchedFeatures tracks fm).length = 0
  · rw [if_pos hc] at h
    exact absurd h (by simp)
  · rw [if_neg hc] at h
    push_neg at hc
    have hm := Option.some.inj h
    subst hm
    exact ⟨Nat.one_le_iff_ne_zero.mpr hc.2, List.length_filterMap_le _ _⟩

/-- Witness instantiating the analyzedCount bounds at one track with a
matching features entry. -/
theorem calculateAggregateMood_count_bounds_witness :
    1 ≤ (⟨1, 1, 0, 1, 1⟩ : MoodData).analyzedCount ∧
      (⟨1, 1, 0, 1, 1⟩ : MoodData).analyzedCount
        ≤ (⟨1, 1, 0, 1, 1⟩ : MoodData).trackCount :=
  calculateAggregateMood_count_bounds [trackA] [("idA", featA)] ⟨1, 1, 0, 1, 1⟩
    (by norm_num [calculateAggregateMood, matchedFeatures, mapGet, average,
      trackA, featA, List.filterMap_cons])

/-- Claim C9: the classifier passes the summary, the track list and the
capture timestamp through unchanged into the result, whatever rule fires. -/
theorem mapToElement_frame (mood : MoodData) (tracks : List SpotifyTrack)
    (date : String) :
    (mapToElement mood tracks date).mood = mood ∧
    (mapToElement mood tracks date).tracks = tracks ∧
    (mapToElement mood tracks date).date = date := by
  unfold mapToElement
  split_ifs <;> exact ⟨rfl, rfl, rfl⟩

/-- Claim C10: danceability and tempo never influence the output: two feature
mappings agreeing on valence, energy and acousticness at every track
identifier produce the same aggregate summary, and hence the same element
label, gradient and description. -/
theorem aggregate_ignores_danceability_tempo (tracks : List SpotifyTrack)
    (fm₁ fm₂ : List (String × AudioFeatures))
    (h : ∀ t ∈ tracks, (mapGet fm₁ t.id).map observableTriple
        = (mapGet fm₂ t.id).map observableTriple) :
    calculateAggregateMood tracks fm₁ = calculateAggregateMood tracks fm₂ ∧
    (∀ (m₁ m₂ : MoodData) (date : String),
        calculateAggregateMood tracks fm₁ = some m₁ →
        calculateAggregateMood tracks fm₂ = some m₂ →
        (mapToElement m₁ tracks date).name = (mapToElement m₂ tracks date).name ∧
        (mapToElement m₁ tracks date).gradient
          = (mapToElement m₂ tracks date).gradient ∧
        (mapToElement m₁ tracks date).description
          = (mapToElement m₂ tracks date).description) := by
  have htr := matchedFeatures_triple_map_congr fm₁ fm₂ tracks h
  have hproj : ∀ (proj : AudioFeatures → ℚ) (g : ℚ × ℚ × ℚ → ℚ),
      (∀ f, proj f = g (observableTriple f)) →
      (matchedFeatures tracks fm₁).map proj
        = (matchedFeatures tracks fm₂).map proj := by
    intro proj g hg
    have h1 : ∀ fm : List (String × AudioFeatures),
        (matchedFeatures tracks fm).map proj
          = ((matchedFeatures tracks fm).map observableTriple).map g := by
      intro fm
      rw [List.map_map]
      exact List.map_congr_left (fun f _ => hg f)
    rw [h1, h1, htr]
  have hv := hproj AudioFeatures.valence (fun x => x.1) (fun f => rfl)
  have he := hproj AudioFeatures.energy (fun x => x.2.1) (fun f => rfl)
  have ha := hproj AudioFeatures.acousticness (fun x => x.2.2) (fun f => rfl)
  have hlen : (matchedFeatures tracks fm₁).length
      = (matchedFeatures tracks fm₂).length := by
    have h2 := congrArg List.length htr
    simpa using h2
  have hmain : calculateAggregateMood tracks fm₁
      = calculateAggregateMood tracks fm₂ := by
    rw [calcMood_eq_build, calcMood_eq_build, hlen, hv, he, ha]
  refine ⟨hmain, ?_⟩
  intro m₁ m₂ date h₁ h₂
  rw [hmain, h₂] at h₁
  have hm : m₂ = m₁ := Option.some.inj h₁
  subst hm
  exact ⟨rfl, rfl, rfl⟩

/-- Witness instantiating the danceability/tempo independence theorem at two
mappings that agree on valence, energy and acousticness but differ in
danceability and tempo. -/
theorem aggregate_ignores_danceability_tempo_witness :
    calculateAggregateMood [trackA] [("idA", featA)]
        = calculateAggregateMood [trackA] [("idA", featAd)] ∧
    (∀ (m₁ m₂ : MoodData) (date : String),
        calculateAggregateMood [trackA] [("idA", featA)] = some m₁ →
        calculateAggregateMood [trackA] [("idA", featAd)] = some m₂ →
        (mapToElement m₁ [trackA] date).name
          = (mapToElement m₂ [trackA] date).name ∧
        (mapToElement m₁ [trackA] date).gradient
          = (mapToElement m₂ [trackA] date).gradient ∧
        (mapToElement m₁ [trackA] date).description
          = (mapToElement m₂ [trackA] date).description) :=
  aggregate_ignores_danceability_tempo [trackA] [("idA", featA)]
    [("idA", featAd)] (by decide)
